import Mathlib

/-!
Verification of the serial-protocol layer of itx_control_desktop
(src/lib/device.py) against its natural-language specification.

The embedding models Python strings as lists of Unicode code points
(`PyStr := List Nat`) and byte strings as lists of byte values, also
`List Nat`.  The JSON payloads exchanged on the wire are modelled by the
inductive `JVal` below; the encoder `dumpsV` mirrors the behaviour of
`json.dumps` with its default arguments (ensure_ascii escaping, the
separators ", " and ": ", surrogate pairs for astral code points), and
the byte-level decoder `loads` mirrors `json.load` on a UTF-8 byte
stream (the encoder output is pure ASCII, so the UTF-8 layer is the
identity on it).  JSON numbers are modelled as integers: the repository
only ever sends and receives integer fields, and floating-point
literals are outside the scope of the embedding.
-/

/-- A Python string, as its list of Unicode code points. -/
abbrev PyStr := List Nat

/-- Code points of a Lean string literal, used to transcribe the string
literals appearing in device.py. -/
def pyStr (s : String) : PyStr := s.data.map Char.toNat

/-- A JSON value as produced and consumed by the json module, with
numbers restricted to integers (the only numbers the protocol uses). -/
inductive JVal where
  | null
  | bool (b : Bool)
  | int (i : Int)
  | str (s : PyStr)
  | arr (xs : List JVal)
  | obj (ps : List (PyStr × JVal))

/-- Decimal digit characters of a natural number, most significant
first.  The fuel argument keeps the recursion structural so that the
kernel can evaluate the definition; `natToDec` supplies enough fuel. -/
def natToDecGo : Nat → Nat → List Nat
  | 0, _ => []
  | fuel + 1, n => if n < 10 then [48 + n] else natToDecGo fuel (n / 10) ++ [48 + n % 10]

/-- Decimal representation of a natural number, as digit code points. -/
def natToDec (n : Nat) : List Nat := natToDecGo (n + 1) n

/-- Decimal representation of an integer, mirroring repr(int) which is
what json.dumps emits for an int. -/
def intToDec : Int → List Nat
  | .ofNat n => natToDec n
  | .negSucc n => 45 :: natToDec (n + 1)

/-- Lower-case hexadecimal digit for a value below 16, as json.dumps
produces in \uXXXX escapes. -/
def hexDig (k : Nat) : Nat := if k < 10 then 48 + k else 87 + k

/-- Four-digit lower-case hexadecimal rendering of a value below
0x10000, as used by the \uXXXX escape. -/
def hexQuad (n : Nat) : List Nat :=
  [hexDig (n / 4096 % 16), hexDig (n / 256 % 16), hexDig (n / 16 % 16), hexDig (n % 16)]

/-- JSON escaping of one code point, following the ensure_ascii encoder
of json.dumps: the two mandatory escapes, the five short control
escapes, printable ASCII verbatim, and \uXXXX (with a surrogate pair
above 0xFFFF) for everything else. -/
def escChar (c : Nat) : List Nat :=
  if c = 34 then [92, 34]
  else if c = 92 then [92, 92]
  else if c = 8 then [92, 98]
  else if c = 9 then [92, 116]
  else if c = 10 then [92, 110]
  else if c = 12 then [92, 102]
  else if c = 13 then [92, 114]
  else if 32 ≤ c ∧ c ≤ 126 then [c]
  else if c < 65536 then 92 :: 117 :: hexQuad c
  else
    92 :: 117 :: hexQuad (55296 + (c - 65536) / 1024) ++
      (92 :: 117 :: hexQuad (56320 + (c - 65536) % 1024))

/-- Escaped body of a JSON string literal. -/
def escStr : PyStr → List Nat
  | [] => []
  | c :: cs => escChar c ++ escStr cs

mutual
/-- Output of json.dumps with default arguments on a JVal, as a list of
code points (all ASCII, so also the UTF-8 bytes written to the port). -/
def dumpsV : JVal → List Nat
  | .null => [110, 117, 108, 108]
  | .bool true => [116, 114, 117, 101]
  | .bool false => [102, 97, 108, 115, 101]
  | .int i => intToDec i
  | .str s => 34 :: escStr s ++ [34]
  | .arr [] => [91, 93]
  | .arr (x :: xs) => 91 :: dumpsV x ++ dumpsArr xs ++ [93]
  | .obj [] => [123, 125]
  | .obj (p :: ps) => 123 :: dumpsPair p ++ dumpsObj ps ++ [125]

/-- Rendering of the remaining array elements, each preceded by the
default item separator ", ". -/
def dumpsArr : List JVal → List Nat
  | [] => []
  | x :: xs => 44 :: 32 :: dumpsV x ++ dumpsArr xs

/-- Rendering of one object member: quoted key, the default key
separator ": ", then the value. -/
def dumpsPair : PyStr × JVal → List Nat
  | (k, v) => 34 :: escStr k ++ 34 :: 58 :: 32 :: dumpsV v

/-- Rendering of the remaining object members, each preceded by ", ". -/
def dumpsObj : List (PyStr × JVal) → List Nat
  | [] => []
  | p :: ps => 44 :: 32 :: dumpsPair p ++ dumpsObj ps
end


/-- Whitespace characters skipped by the json decoder between tokens. -/
def isWsB (c : Nat) : Bool := c == 32 || c == 9 || c == 10 || c == 13

/-- Leading JSON whitespace removed. -/
def skipWs : List Nat → List Nat
  | [] => []
  | c :: r => if isWsB c then skipWs r else c :: r

/-- Value of one hexadecimal digit character, if it is one. -/
def parseHexDig (c : Nat) : Option Nat :=
  if 48 ≤ c ∧ c ≤ 57 then some (c - 48)
  else if 97 ≤ c ∧ c ≤ 102 then some (c - 87)
  else if 65 ≤ c ∧ c ≤ 70 then some (c - 55)
  else none

/-- Value of a four-digit hexadecimal escape body. -/
def hexQuadVal (a b c d : Nat) : Option Nat :=
  match parseHexDig a, parseHexDig b, parseHexDig c, parseHexDig d with
  | some x, some y, some z, some w => some (((x * 16 + y) * 16 + z) * 16 + w)
  | _, _, _, _ => none

/-- Replacement for a short backslash escape, mirroring the decoder
table of the json module (\" \\ \/ \b \f \n \r \t). -/
def unescapeShort (e : Nat) : Option Nat :=
  if e = 34 then some 34
  else if e = 92 then some 92
  else if e = 47 then some 47
  else if e = 98 then some 8
  else if e = 102 then some 12
  else if e = 110 then some 10
  else if e = 114 then some 13
  else if e = 116 then some 9
  else none

/-- Body of a JSON string literal after the opening quote, following the
scanstring routine of the json module: literal characters up to the
closing quote (control characters rejected, strict mode), short escapes,
\uXXXX escapes, and recombination of a high and low surrogate pair into
one astral code point; an unpaired surrogate escape is kept as is.  The
fuel keeps the recursion structural; every step consumes at least one
character, so any fuel of at least the input length is sufficient, and
the wrapper `parseStrBody` supplies exactly that. -/
def parseStrBodyGo : Nat → List Nat → Option (PyStr × List Nat)
  | 0, _ => none
  | _, [] => none
  | fuel + 1, c :: r =>
    if c = 34 then some ([], r)
    else if c = 92 then
      match r with
      | 117 :: a :: b :: c2 :: d :: r2 =>
        match hexQuadVal a b c2 d with
        | none => none
        | some n =>
          if 55296 ≤ n ∧ n < 56320 then
            match r2 with
            | 92 :: 117 :: a2 :: b2 :: c3 :: d2 :: r3 =>
              match hexQuadVal a2 b2 c3 d2 with
              | some m =>
                if 56320 ≤ m ∧ m < 57344 then
                  match parseStrBodyGo fuel r3 with
                  | some (s, rest) =>
                    some ((65536 + (n - 55296) * 1024 + (m - 56320)) :: s, rest)
                  | none => none
                else
                  match parseStrBodyGo fuel (92 :: 117 :: a2 :: b2 :: c3 :: d2 :: r3) with
                  | some (s, rest) => some (n :: s, rest)
                  | none => none
              | none => none
            | r2x =>
              match parseStrBodyGo fuel r2x with
              | some (s, rest) => some (n :: s, rest)
              | none => none
          else
            match parseStrBodyGo fuel r2 with
            | some (s, rest) => some (n :: s, rest)
            | none => none
      | e :: r2 =>
        match unescapeShort e with
        | some u =>
          match parseStrBodyGo fuel r2 with
          | some (s, rest) => some (u :: s, rest)
          | none => none
        | none => none
      | [] => none
    else if c < 32 then none
    else
      match parseStrBodyGo fuel r with
      | some (s, rest) => some (c :: s, rest)
      | none => none

/-- String-literal body scan with sufficient fuel. -/
def parseStrBody (l : List Nat) : Option (PyStr × List Nat) := parseStrBodyGo l.length l

/-- Accumulating decimal scan: consumes digit characters greedily. -/
def parseDigitsAcc : List Nat → Nat → Nat × List Nat
  | [], acc => (acc, [])
  | c :: r, acc =>
    if 48 ≤ c ∧ c ≤ 57 then parseDigitsAcc r (acc * 10 + (c - 48)) else (acc, c :: r)

/-- Integer literal scan of the json decoder: an optional minus sign and
a digit run, where a leading zero ends the literal at once.  Fractions
and exponents would produce floats and are outside the modelled
domain. -/
def parseIntLit : List Nat → Option (Int × List Nat)
  | [] => none
  | c :: r =>
    if c = 45 then
      match r with
      | [] => none
      | c2 :: r2 =>
        if c2 = 48 then some (0, r2)
        else if 48 ≤ c2 ∧ c2 ≤ 57 then
          match parseDigitsAcc r2 (c2 - 48) with
          | (n, rest) => some (-(n : Int), rest)
        else none
    else if c = 48 then some (0, r)
    else if 48 ≤ c ∧ c ≤ 57 then
      match parseDigitsAcc r (c - 48) with
      | (n, rest) => some ((n : Int), rest)
    else none

mutual
/-- One JSON value scanned from the head of the input, returning it with
the unconsumed remainder, in the manner of the scanner of the json
module.  The fuel bounds the nesting depth; any fuel of at least the
input length is sufficient, since entering a nested value always
consumes at least one character. -/
def parseValue : Nat → List Nat → Option (JVal × List Nat)
  | 0, _ => none
  | fuel + 1, input =>
    match input with
    | [] => none
    | c :: r =>
      if c = 110 then
        match r with
        | 117 :: 108 :: 108 :: r2 => some (.null, r2)
        | _ => none
      else if c = 116 then
        match r with
        | 114 :: 117 :: 101 :: r2 => some (.bool true, r2)
        | _ => none
      else if c = 102 then
        match r with
        | 97 :: 108 :: 115 :: 101 :: r2 => some (.bool false, r2)
        | _ => none
      else if c = 34 then
        match parseStrBody r with
        | some (s, rest) => some (.str s, rest)
        | none => none
      else if c = 91 then
        match skipWs r with
        | [] => none
        | d :: r2 =>
          if d = 93 then some (.arr [], r2)
          else
            match parseValue fuel (d :: r2) with
            | some (v, rest) =>
              match parseArrRest fuel rest with
              | some (vs, rest2) => some (.arr (v :: vs), rest2)
              | none => none
            | none => none
      else if c = 123 then
        match skipWs r with
        | [] => none
        | d :: r2 =>
          if d = 125 then some (.obj [], r2)
          else if d = 34 then
            match parseStrBody r2 with
            | some (k, r3) =>
              match skipWs r3 with
              | [] => none
              | d3 :: r5 =>
                if d3 = 58 then
                  match parseValue fuel (skipWs r5) with
                  | some (v, r6) =>
                    match parseObjRest fuel r6 with
                    | some (ps, r7) => some (.obj ((k, v) :: ps), r7)
                    | none => none
                  | none => none
                else none
            | none => none
          else none
      else
        match parseIntLit (c :: r) with
        | some (i, rest) => some (.int i, rest)
        | none => none

/-- Elements of an array after the first one: a comma and a value,
repeatedly, until the closing bracket. -/
def parseArrRest : Nat → List Nat → Option (List JVal × List Nat)
  | 0, _ => none
  | fuel + 1, input =>
    match skipWs input with
    | [] => none
    | d :: r =>
      if d = 93 then some ([], r)
      else if d = 44 then
        match parseValue fuel (skipWs r) with
        | some (v, rest) =>
          match parseArrRest fuel rest with
          | some (vs, rest2) => some (v :: vs, rest2)
          | none => none
        | none => none
      else none

/-- Members of an object after the first one: a comma, a quoted key, a
colon and a value, repeatedly, until the closing brace. -/
def parseObjRest : Nat → List Nat → Option (List (PyStr × JVal) × List Nat)
  | 0, _ => none
  | fuel + 1, input =>
    match skipWs input with
    | [] => none
    | d :: r =>
      if d = 125 then some ([], r)
      else if d = 44 then
        match skipWs r with
        | [] => none
        | d2 :: r2 =>
          if d2 = 34 then
            match parseStrBody r2 with
            | some (k, r3) =>
              match skipWs r3 with
              | [] => none
              | d3 :: r5 =>
                if d3 = 58 then
                  match parseValue fuel (skipWs r5) with
                  | some (v, r6) =>
                    match parseObjRest fuel r6 with
                    | some (ps, r7) => some ((k, v) :: ps, r7)
                    | none => none
                  | none => none
                else none
            | none => none
          else none
      else none
end

/-- Whole-document decode in the manner of json.load on the received
line: leading whitespace is skipped, one value is scanned, and only
trailing whitespace may remain.  A malformed document yields none, the
event the code handles as json.JSONDecodeError. -/
def loads (bs : List Nat) : Option JVal :=
  match parseValue (bs.length + 1) (skipWs bs) with
  | some (v, rest) => if (skipWs rest).isEmpty then some v else none
  | none => none


/-- Decimal digit test on a code point. -/
def isDigitB (c : Nat) : Bool := decide (48 ≤ c ∧ c ≤ 57)

/-- Holds when the input does not begin with a decimal digit, so a digit
run scanned in front of it cannot spill into it. -/
def headNoDigit : List Nat → Bool
  | [] => true
  | c :: _ => !isDigitB c

theorem parseDigitsAcc_stop {l : List Nat} (h : headNoDigit l = true) (acc : Nat) :
    parseDigitsAcc l acc = (acc, l) := by
  cases l with
  | nil => rfl
  | cons c r =>
    simp only [headNoDigit, isDigitB, Bool.not_eq_true', decide_eq_false_iff_not] at h
    simp [parseDigitsAcc, h]

theorem natToDecGo_digits : ∀ fuel n, n < fuel → ∀ c ∈ natToDecGo fuel n, 48 ≤ c ∧ c ≤ 57
  | 0, n, h => by omega
  | fuel + 1, n, h => by
    intro c hc
    simp only [natToDecGo] at hc
    by_cases h10 : n < 10
    · rw [if_pos h10] at hc
      simp at hc
      omega
    · rw [if_neg h10] at hc
      have hlt : n / 10 < fuel := by
        have := Nat.div_lt_self (show 0 < n by omega) (show 1 < 10 by omega)
        omega
      rcases List.mem_append.mp hc with hm | hm
      · exact natToDecGo_digits fuel (n / 10) hlt c hm
      · simp at hm
        omega

theorem natToDecGo_head : ∀ fuel n, n < fuel →
    ∃ d t, natToDecGo fuel n = d :: t ∧ 48 ≤ d ∧ d ≤ 57 ∧ (1 ≤ n → 49 ≤ d)
  | 0, n, h => by omega
  | fuel + 1, n, h => by
    by_cases h10 : n < 10
    · refine ⟨48 + n, [], ?_, by omega, by omega, by omega⟩
      simp [natToDecGo, h10]
    · have hlt : n / 10 < fuel := by
        have := Nat.div_lt_self (show 0 < n by omega) (show 1 < 10 by omega)
        omega
      obtain ⟨d, t, he, h1, h2, h3⟩ := natToDecGo_head fuel (n / 10) hlt
      refine ⟨d, t ++ [48 + n % 10], ?_, h1, h2, fun _ => h3 (by omega)⟩
      simp [natToDecGo, h10, he]

theorem parseDigitsAcc_natToDecGo : ∀ fuel n, n < fuel → ∀ acc rest,
    parseDigitsAcc (natToDecGo fuel n ++ rest) acc =
      parseDigitsAcc rest (acc * 10 ^ (natToDecGo fuel n).length + n)
  | 0, n, h => by omega
  | fuel + 1, n, h => by
    intro acc rest
    by_cases h10 : n < 10
    · simp only [natToDecGo, if_pos h10]
      simp only [List.cons_append, List.nil_append, parseDigitsAcc, List.length_cons,
        List.length_nil]
      rw [if_pos (by omega : 48 ≤ 48 + n ∧ 48 + n ≤ 57)]
      norm_num
    · have hlt : n / 10 < fuel := by
        have := Nat.div_lt_self (show 0 < n by omega) (show 1 < 10 by omega)
        omega
      simp only [natToDecGo, if_neg h10, List.append_assoc, List.cons_append, List.nil_append]
      rw [parseDigitsAcc_natToDecGo fuel (n / 10) hlt]
      simp only [parseDigitsAcc]
      rw [if_pos (by omega : 48 ≤ 48 + n % 10 ∧ 48 + n % 10 ≤ 57)]
      congr 1
      have hdm : 10 * (n / 10) + n % 10 = n := Nat.div_add_mod n 10
      have h48 : 48 + n % 10 - 48 = n % 10 := by omega
      rw [h48, List.length_append, List.length_cons, List.length_nil, pow_succ]
      calc (acc * 10 ^ (natToDecGo fuel (n / 10)).length + n / 10) * 10 + n % 10
          = acc * (10 ^ (natToDecGo fuel (n / 10)).length * 10) + (10 * (n / 10) + n % 10) := by
            ring
        _ = acc * (10 ^ (natToDecGo fuel (n / 10)).length * 10) + n := by rw [hdm]

theorem parseIntLit_intToDec (i : Int) (rest : List Nat) (h : headNoDigit rest = true) :
    parseIntLit (intToDec i ++ rest) = some (i, rest) := by
  cases i with
  | ofNat n =>
    cases n with
    | zero => simp [intToDec, natToDec, natToDecGo, parseIntLit]
    | succ m =>
      obtain ⟨d, t, he, h1, h2, h3⟩ := natToDecGo_head (m + 2) (m + 1) (by omega)
      have h49 : 49 ≤ d := h3 (by omega)
      have hfull := parseDigitsAcc_natToDecGo (m + 2) (m + 1) (by omega) 0 rest
      rw [he] at hfull
      simp only [List.cons_append, List.append_eq, parseDigitsAcc] at hfull
      rw [if_pos (by omega : 48 ≤ d ∧ d ≤ 57)] at hfull
      rw [parseDigitsAcc_stop h] at hfull
      norm_num at hfull
      simp only [intToDec, natToDec, he, List.cons_append, parseIntLit]
      rw [if_neg (by omega : ¬d = 45), if_neg (by omega : ¬d = 48),
        if_pos (by omega : 48 ≤ d ∧ d ≤ 57)]
      rw [hfull]
      rfl
  | negSucc m =>
    obtain ⟨d, t, he, h1, h2, h3⟩ := natToDecGo_head (m + 2) (m + 1) (by omega)
    have h49 : 49 ≤ d := h3 (by omega)
    have hfull := parseDigitsAcc_natToDecGo (m + 2) (m + 1) (by omega) 0 rest
    rw [he] at hfull
    simp only [List.cons_append, List.append_eq, parseDigitsAcc] at hfull
    rw [if_pos (by omega : 48 ≤ d ∧ d ≤ 57)] at hfull
    rw [parseDigitsAcc_stop h] at hfull
    norm_num at hfull
    simp only [intToDec, natToDec, he, List.cons_append, parseIntLit, if_true]
    rw [if_neg (by omega : ¬d = 48), if_pos (by omega : 48 ≤ d ∧ d ≤ 57)]
    rw [hfull]
    simp only [Option.some.injEq, Prod.mk.injEq, and_true]
    have : Int.negSucc m = -((m : Int) + 1) := Int.negSucc_eq m
    rw [this]
    push_cast
    ring

theorem parseHexDig_hexDig (k : Nat) (h : k < 16) : parseHexDig (hexDig k) = some k := by
  unfold hexDig parseHexDig
  by_cases h10 : k < 10
  · rw [if_pos h10, if_pos (by omega)]
    congr 1
    omega
  · rw [if_neg h10, if_neg (by omega), if_pos (by omega)]
    congr 1
    omega

theorem hexQuadVal_hexQuad (n : Nat) (h : n < 65536) :
    hexQuadVal (hexDig (n / 4096 % 16)) (hexDig (n / 256 % 16))
      (hexDig (n / 16 % 16)) (hexDig (n % 16)) = some n := by
  simp only [hexQuadVal, parseHexDig_hexDig _ (by omega : n / 4096 % 16 < 16),
    parseHexDig_hexDig _ (by omega : n / 256 % 16 < 16),
    parseHexDig_hexDig _ (by omega : n / 16 % 16 < 16),
    parseHexDig_hexDig _ (by omega : n % 16 < 16), Option.some.injEq]
  have e1 : n / 16 / 16 = n / 256 := by
    rw [Nat.div_div_eq_div_mul]
  have e2 : n / 256 / 16 = n / 4096 := by
    rw [Nat.div_div_eq_div_mul]
  have a1 := Nat.div_add_mod n 16
  have a2 := Nat.div_add_mod (n / 16) 16
  have a3 := Nat.div_add_mod (n / 256) 16
  rw [e1] at a2
  rw [e2] at a3
  have hq : n / 4096 % 16 = n / 4096 := Nat.mod_eq_of_lt (by omega)
  rw [hq]
  omega

/-- Code points writable on the wire: a valid Unicode scalar value, that
is below 0x110000 and not a surrogate. -/
def scalarOk (c : Nat) : Prop := c < 1114112 ∧ ¬(55296 ≤ c ∧ c ≤ 57343)

instance (c : Nat) : Decidable (scalarOk c) := by
  unfold scalarOk
  infer_instance

/-- A Python string all of whose code points are Unicode scalar values,
which is exactly what a string that can reach the wire looks like. -/
def WfStr (s : PyStr) : Prop := ∀ c ∈ s, scalarOk c

instance (s : PyStr) : Decidable (WfStr s) := List.decidableBAll _ s

theorem escChar_length_pos (c : Nat) : 1 ≤ (escChar c).length := by
  unfold escChar
  repeat' split
  all_goals simp [hexQuad]

theorem psbQuadPair (f : Nat) (hi lo : Nat) (hhi : 55296 ≤ hi ∧ hi < 56320)
    (hlo : 56320 ≤ lo ∧ lo < 57344) (tail : List Nat) :
    parseStrBodyGo (f + 1) (92 :: 117 :: (hexQuad hi ++ (92 :: 117 :: (hexQuad lo ++ tail)))) =
      match parseStrBodyGo f tail with
      | some (s, rest) => some ((65536 + (hi - 55296) * 1024 + (lo - 56320)) :: s, rest)
      | none => none := by
  simp only [hexQuad, List.cons_append, List.nil_append, List.append_eq, parseStrBodyGo]
  norm_num
  simp only [hexQuadVal_hexQuad hi (by omega), hexQuadVal_hexQuad lo (by omega)]
  rw [if_pos hhi, if_pos hlo]

theorem psbQuadOne (f : Nat) (n : Nat) (hn : n < 65536) (hsur : ¬(55296 ≤ n ∧ n < 56320))
    (tail : List Nat) :
    parseStrBodyGo (f + 1) (92 :: 117 :: (hexQuad n ++ tail)) =
      match parseStrBodyGo f tail with
      | some (s, rest) => some (n :: s, rest)
      | none => none := by
  simp only [hexQuad, List.cons_append, List.nil_append, List.append_eq, parseStrBodyGo]
  norm_num
  simp only [hexQuadVal_hexQuad n hn]
  rw [if_neg hsur]

theorem escRtStep (c : Nat) (cs : PyStr) (f : Nat) (rest : List Nat)
    (hc : scalarOk c)
    (ih : parseStrBodyGo f (escStr cs ++ 34 :: rest) = some (cs, rest)) :
    parseStrBodyGo (f + 1) (escChar c ++ (escStr cs ++ 34 :: rest)) = some (c :: cs, rest) := by
  by_cases h34 : c = 34
  · subst h34
    simp [escChar, parseStrBodyGo, unescapeShort, ih]
  · by_cases h92 : c = 92
    · subst h92
      simp [escChar, parseStrBodyGo, unescapeShort, ih]
    · by_cases h8 : c = 8
      · subst h8
        simp [escChar, parseStrBodyGo, unescapeShort, ih]
      · by_cases h9 : c = 9
        · subst h9
          simp [escChar, parseStrBodyGo, unescapeShort, ih]
        · by_cases h10 : c = 10
          · subst h10
            simp [escChar, parseStrBodyGo, unescapeShort, ih]
          · by_cases h12 : c = 12
            · subst h12
              simp [escChar, parseStrBodyGo, unescapeShort, ih]
            · by_cases h13 : c = 13
              · subst h13
                simp [escChar, parseStrBodyGo, unescapeShort, ih]
              · by_cases hprint : 32 ≤ c ∧ c ≤ 126
                · rw [escChar, if_neg h34, if_neg h92, if_neg h8, if_neg h9, if_neg h10,
                    if_neg h12, if_neg h13, if_pos hprint]
                  simp only [List.cons_append, List.nil_append, List.append_eq,
                    parseStrBodyGo]
                  rw [if_neg h34, if_neg h92, if_neg (by omega : ¬c < 32)]
                  simp [ih]
                · by_cases hbmp : c < 65536
                  · rw [escChar, if_neg h34, if_neg h92, if_neg h8, if_neg h9, if_neg h10,
                      if_neg h12, if_neg h13, if_neg hprint, if_pos hbmp]
                    have hsur : ¬(55296 ≤ c ∧ c < 56320) := by
                      rcases hc with ⟨_, hs⟩
                      omega
                    simp only [List.cons_append, List.append_assoc]
                    rw [psbQuadOne f c hbmp hsur (escStr cs ++ 34 :: rest), ih]
                  · rw [escChar, if_neg h34, if_neg h92, if_neg h8, if_neg h9, if_neg h10,
                      if_neg h12, if_neg h13, if_neg hprint, if_neg hbmp]
                    have hup : c < 1114112 := hc.1
                    have hmod := Nat.mod_lt (c - 65536) (show 0 < 1024 by omega)
                    simp only [List.cons_append, List.append_assoc]
                    rw [psbQuadPair f _ _ (by omega) (by omega) (escStr cs ++ 34 :: rest), ih]
                    have hcomb : 65536 + (55296 + (c - 65536) / 1024 - 55296) * 1024 +
                        (56320 + (c - 65536) % 1024 - 56320) = c := by omega
                    rw [hcomb]

theorem parseStrBodyGo_escStr : ∀ (s : PyStr) (fuel : Nat) (rest : List Nat), WfStr s →
    (escStr s).length < fuel →
    parseStrBodyGo fuel (escStr s ++ 34 :: rest) = some (s, rest) := by
  intro s
  induction s with
  | nil =>
    intro fuel rest _ hlen
    cases fuel with
    | zero => omega
    | succ f => simp [escStr, parseStrBodyGo]
  | cons c cs ihs =>
    intro fuel rest hwf hlen
    have hc : scalarOk c := hwf c (by simp)
    have hcs : WfStr cs := fun x hx => hwf x (by simp [hx])
    have hlc : 1 ≤ (escChar c).length := escChar_length_pos c
    rw [escStr, List.length_append] at hlen
    cases fuel with
    | zero => omega
    | succ f =>
    have hrec : (escStr cs).length < f := by omega
    have ih := ihs f rest hcs hrec
    rw [escStr, List.append_assoc]
    exact escRtStep c cs f rest hc ih

/-- Possible first characters of an encoded JSON value: a keyword
letter, a quote, an opening bracket or brace, a minus sign or a digit. -/
def goodHead (d : Nat) : Prop :=
  d = 110 ∨ d = 116 ∨ d = 102 ∨ d = 34 ∨ d = 91 ∨ d = 123 ∨ d = 45 ∨ (48 ≤ d ∧ d ≤ 57)

theorem intToDec_head (i : Int) : ∃ d t, intToDec i = d :: t ∧ (d = 45 ∨ (48 ≤ d ∧ d ≤ 57)) := by
  cases i with
  | ofNat n =>
    obtain ⟨d, t, he, h1, h2, _⟩ := natToDecGo_head (n + 1) n (by omega)
    refine ⟨d, t, ?_, Or.inr ⟨h1, h2⟩⟩
    simpa [intToDec, natToDec] using he
  | negSucc n => exact ⟨45, natToDec (n + 1), rfl, Or.inl rfl⟩

theorem dumpsV_head (v : JVal) : ∃ d t, dumpsV v = d :: t ∧ goodHead d := by
  cases v with
  | null => exact ⟨110, [117, 108, 108], rfl, Or.inl rfl⟩
  | bool b =>
    cases b with
    | true => exact ⟨116, [114, 117, 101], rfl, Or.inr (Or.inl rfl)⟩
    | false => exact ⟨102, [97, 108, 115, 101], rfl, Or.inr (Or.inr (Or.inl rfl))⟩
  | int i =>
    obtain ⟨d, t, he, hd⟩ := intToDec_head i
    refine ⟨d, t, by simp [dumpsV, he], ?_⟩
    rcases hd with h | h
    · exact Or.inr (Or.inr (Or.inr (Or.inr (Or.inr (Or.inr (Or.inl h))))))
    · exact Or.inr (Or.inr (Or.inr (Or.inr (Or.inr (Or.inr (Or.inr h))))))
  | str s =>
    refine ⟨34, escStr s ++ [34], ?_, Or.inr (Or.inr (Or.inr (Or.inl rfl)))⟩
    simp [dumpsV]
  | arr xs =>
    cases xs with
    | nil => exact ⟨91, [93], by simp [dumpsV], Or.inr (Or.inr (Or.inr (Or.inr (Or.inl rfl))))⟩
    | cons x t =>
      refine ⟨91, dumpsV x ++ (dumpsArr t ++ [93]), ?_,
        Or.inr (Or.inr (Or.inr (Or.inr (Or.inl rfl))))⟩
      simp [dumpsV]
  | obj ps =>
    cases ps with
    | nil =>
      exact ⟨123, [125], by simp [dumpsV],
        Or.inr (Or.inr (Or.inr (Or.inr (Or.inr (Or.inl rfl)))))⟩
    | cons p t =>
      refine ⟨123, dumpsPair p ++ (dumpsObj t ++ [125]), ?_,
        Or.inr (Or.inr (Or.inr (Or.inr (Or.inr (Or.inl rfl)))))⟩
      simp [dumpsV]

theorem isWsB_goodHead {d : Nat} (hg : goodHead d) : isWsB d = false := by
  unfold isWsB
  rcases hg with h | h | h | h | h | h | h | h
  all_goals first
    | (subst h; rfl)
    | (simp only [Bool.or_eq_false_iff, beq_eq_false_iff_ne, ne_eq]
       omega)

theorem skipWs_dumpsV (v : JVal) (t : List Nat) : skipWs (dumpsV v ++ t) = dumpsV v ++ t := by
  obtain ⟨d, tt, he, hg⟩ := dumpsV_head v
  rw [he, List.cons_append, skipWs, if_neg (by simp [isWsB_goodHead hg])]

theorem headNoDigit_dumpsArr (xs : List JVal) (rest : List Nat) :
    headNoDigit (dumpsArr xs ++ 93 :: rest) = true := by
  cases xs <;> simp [dumpsArr, headNoDigit, isDigitB]

theorem headNoDigit_dumpsObj (ps : List (PyStr × JVal)) (rest : List Nat) :
    headNoDigit (dumpsObj ps ++ 125 :: rest) = true := by
  cases ps <;> simp [dumpsObj, dumpsPair, headNoDigit, isDigitB]

/-- Well-formed JSON values: every string occurring in the value, as an
object key or a string value, consists of Unicode scalar values. -/
inductive WfV : JVal → Prop where
  | null : WfV .null
  | bool (b : Bool) : WfV (.bool b)
  | int (i : Int) : WfV (.int i)
  | str {s : PyStr} (h : WfStr s) : WfV (.str s)
  | arr {xs : List JVal} (h : ∀ v ∈ xs, WfV v) : WfV (.arr xs)
  | obj {ps : List (PyStr × JVal)} (hk : ∀ p ∈ ps, WfStr p.1)
      (hv : ∀ p ∈ ps, WfV p.2) : WfV (.obj ps)

theorem skipWs_cons32 (t : List Nat) : skipWs (32 :: t) = skipWs t := by
  rw [skipWs]
  rfl

theorem parseArrRest_dumpsArr : ∀ (xs : List JVal) (fuel : Nat) (rest : List Nat),
    (∀ x ∈ xs, ∀ (fuel2 : Nat) (rest2 : List Nat), (dumpsV x).length < fuel2 →
      headNoDigit rest2 = true → parseValue fuel2 (dumpsV x ++ rest2) = some (x, rest2)) →
    (dumpsArr xs).length < fuel →
    parseArrRest fuel (dumpsArr xs ++ 93 :: rest) = some (xs, rest) := by
  intro xs
  induction xs with
  | nil =>
    intro fuel rest _ hlen
    cases fuel with
    | zero => omega
    | succ f => simp [dumpsArr, parseArrRest, skipWs, isWsB]
  | cons x xs ihx =>
    intro fuel rest hP hlen
    have hx := hP x (by simp)
    have hPrest : ∀ y ∈ xs, ∀ (fuel2 : Nat) (rest2 : List Nat), (dumpsV y).length < fuel2 →
        headNoDigit rest2 = true → parseValue fuel2 (dumpsV y ++ rest2) = some (y, rest2) :=
      fun y hy => hP y (by simp [hy])
    have hl : (dumpsArr (x :: xs)).length =
        (dumpsV x).length + (dumpsArr xs).length + 2 := by
      simp only [dumpsArr, List.length_append, List.length_cons]
      omega
    cases fuel with
    | zero => omega
    | succ f =>
    rw [show dumpsArr (x :: xs) ++ 93 :: rest =
        44 :: 32 :: (dumpsV x ++ (dumpsArr xs ++ 93 :: rest)) by simp [dumpsArr]]
    simp only [parseArrRest]
    rw [show skipWs (44 :: 32 :: (dumpsV x ++ (dumpsArr xs ++ 93 :: rest))) =
        44 :: 32 :: (dumpsV x ++ (dumpsArr xs ++ 93 :: rest)) from by
      rw [skipWs, if_neg (by simp [isWsB])]]
    norm_num
    rw [skipWs_cons32, skipWs_dumpsV x (dumpsArr xs ++ 93 :: rest)]
    simp only [hx f (dumpsArr xs ++ 93 :: rest) (by omega) (headNoDigit_dumpsArr xs rest),
      ihx f rest hPrest (by omega)]

theorem parseObjRest_dumpsObj : ∀ (ps : List (PyStr × JVal)) (fuel : Nat) (rest : List Nat),
    (∀ p ∈ ps, WfStr p.1) →
    (∀ p ∈ ps, ∀ (fuel2 : Nat) (rest2 : List Nat), (dumpsV p.2).length < fuel2 →
      headNoDigit rest2 = true → parseValue fuel2 (dumpsV p.2 ++ rest2) = some (p.2, rest2)) →
    (dumpsObj ps).length < fuel →
    parseObjRest fuel (dumpsObj ps ++ 125 :: rest) = some (ps, rest) := by
  intro ps
  induction ps with
  | nil =>
    intro fuel rest _ _ hlen
    cases fuel with
    | zero => omega
    | succ f => simp [dumpsObj, parseObjRest, skipWs, isWsB]
  | cons p ps ihp =>
    obtain ⟨k, v⟩ := p
    intro fuel rest hK hP hlen
    have hk : WfStr k := hK (k, v) (by simp)
    have hv : ∀ (fuel2 : Nat) (rest2 : List Nat), (dumpsV v).length < fuel2 →
        headNoDigit rest2 = true → parseValue fuel2 (dumpsV v ++ rest2) = some (v, rest2) :=
      hP (k, v) (by simp)
    have hKrest : ∀ q ∈ ps, WfStr q.1 := fun q hq => hK q (by simp [hq])
    have hPrest : ∀ q ∈ ps, ∀ (fuel2 : Nat) (rest2 : List Nat), (dumpsV q.2).length < fuel2 →
        headNoDigit rest2 = true → parseValue fuel2 (dumpsV q.2 ++ rest2) = some (q.2, rest2) :=
      fun q hq => hP q (by simp [hq])
    have hl : (dumpsObj ((k, v) :: ps)).length =
        (escStr k).length + (dumpsV v).length + (dumpsObj ps).length + 6 := by
      simp only [dumpsObj, dumpsPair, List.length_append, List.length_cons]
      omega
    cases fuel with
    | zero => omega
    | succ f =>
    rw [show dumpsObj ((k, v) :: ps) ++ 125 :: rest =
        44 :: 32 :: 34 :: (escStr k ++
          (34 :: 58 :: 32 :: (dumpsV v ++ (dumpsObj ps ++ 125 :: rest)))) by
      simp [dumpsObj, dumpsPair]]
    simp only [parseObjRest]
    rw [show skipWs (44 :: 32 :: 34 :: (escStr k ++
        (34 :: 58 :: 32 :: (dumpsV v ++ (dumpsObj ps ++ 125 :: rest))))) =
        44 :: 32 :: 34 :: (escStr k ++
          (34 :: 58 :: 32 :: (dumpsV v ++ (dumpsObj ps ++ 125 :: rest)))) from by
      rw [skipWs, if_neg (by simp [isWsB])]]
    norm_num
    rw [skipWs_cons32]
    rw [show skipWs (34 :: (escStr k ++
        (34 :: 58 :: 32 :: (dumpsV v ++ (dumpsObj ps ++ 125 :: rest))))) =
        34 :: (escStr k ++
          (34 :: 58 :: 32 :: (dumpsV v ++ (dumpsObj ps ++ 125 :: rest)))) from by
      rw [skipWs, if_neg (by simp [isWsB])]]
    norm_num
    rw [show parseStrBody (escStr k ++
        (34 :: 58 :: 32 :: (dumpsV v ++ (dumpsObj ps ++ 125 :: rest)))) =
        some (k, 58 :: 32 :: (dumpsV v ++ (dumpsObj ps ++ 125 :: rest))) from by
      rw [parseStrBody]
      exact parseStrBodyGo_escStr k _ _ hk (by simp [List.length_append])]
    simp only []
    rw [show skipWs (58 :: 32 :: (dumpsV v ++ (dumpsObj ps ++ 125 :: rest))) =
        58 :: 32 :: (dumpsV v ++ (dumpsObj ps ++ 125 :: rest)) from by
      rw [skipWs, if_neg (by simp [isWsB])]]
    norm_num
    rw [skipWs_cons32, skipWs_dumpsV v (dumpsObj ps ++ 125 :: rest)]
    simp only [hv f (dumpsObj ps ++ 125 :: rest) (by omega) (headNoDigit_dumpsObj ps rest),
      ihp f rest hKrest hPrest (by omega)]

theorem parseValue_dumpsV : ∀ (v : JVal), WfV v → ∀ (fuel : Nat) (rest : List Nat),
    (dumpsV v).length < fuel → headNoDigit rest = true →
    parseValue fuel (dumpsV v ++ rest) = some (v, rest) := by
  intro v hwf
  induction hwf with
  | null =>
    intro fuel rest hlen hnd
    cases fuel with
    | zero => simp [dumpsV] at hlen
    | succ f =>
      rw [show dumpsV .null ++ rest = 110 :: 117 :: 108 :: 108 :: rest by simp [dumpsV]]
      simp [parseValue]
  | bool b =>
    intro fuel rest hlen hnd
    cases fuel with
    | zero => cases b <;> simp [dumpsV] at hlen
    | succ f =>
      cases b with
      | true =>
        rw [show dumpsV (.bool true) ++ rest = 116 :: 114 :: 117 :: 101 :: rest by
          simp [dumpsV]]
        simp [parseValue]
      | false =>
        rw [show dumpsV (.bool false) ++ rest = 102 :: 97 :: 108 :: 115 :: 101 :: rest by
          simp [dumpsV]]
        simp [parseValue]
  | int i =>
    intro fuel rest hlen hnd
    obtain ⟨d, t, he, hd⟩ := intToDec_head i
    have hdr : 45 ≤ d ∧ d ≤ 57 := by
      rcases hd with h | h <;> omega
    have hd48 : d = 45 ∨ (48 ≤ d ∧ d ≤ 57) := hd
    cases fuel with
    | zero => simp [dumpsV] at hlen
    | succ f =>
    rw [show dumpsV (.int i) ++ rest = d :: (t ++ rest) by simp [dumpsV, he]]
    simp only [parseValue]
    rw [if_neg (by omega : ¬d = 110), if_neg (by omega : ¬d = 116),
      if_neg (by omega : ¬d = 102), if_neg (by omega : ¬d = 34),
      if_neg (by omega : ¬d = 91), if_neg (by omega : ¬d = 123)]
    rw [← List.cons_append, ← he]
    simp only [parseIntLit_intToDec i rest hnd]
  | str hs =>
    rename_i s
    intro fuel rest hlen hnd
    cases fuel with
    | zero => simp [dumpsV] at hlen
    | succ f =>
    rw [show dumpsV (.str s) ++ rest = 34 :: (escStr s ++ 34 :: rest) by simp [dumpsV]]
    simp only [parseValue]
    norm_num
    rw [parseStrBody]
    simp only [parseStrBodyGo_escStr s (escStr s ++ 34 :: rest).length rest hs
      (by simp [List.length_append])]
  | arr hmem ih =>
    rename_i xs
    intro fuel rest hlen hnd
    cases xs with
    | nil =>
      cases fuel with
      | zero => simp [dumpsV] at hlen
      | succ f =>
        rw [show dumpsV (.arr []) ++ rest = 91 :: 93 :: rest by simp [dumpsV]]
        simp [parseValue, skipWs, isWsB]
    | cons x xs =>
      have hla : (dumpsV (.arr (x :: xs))).length =
          (dumpsV x).length + (dumpsArr xs).length + 2 := by
        simp only [dumpsV, List.length_append, List.length_cons, List.length_nil]
        omega
      cases fuel with
      | zero => omega
      | succ f =>
      obtain ⟨dx, tx, hex, hgx⟩ := dumpsV_head x
      have hdx : ¬dx = 93 := by
        rcases hgx with h | h | h | h | h | h | h | h <;> omega
      rw [show dumpsV (.arr (x :: xs)) ++ rest =
          91 :: (dumpsV x ++ (dumpsArr xs ++ 93 :: rest)) by simp [dumpsV]]
      simp only [parseValue]
      norm_num
      rw [skipWs_dumpsV x (dumpsArr xs ++ 93 :: rest), hex, List.cons_append]
      norm_num
      rw [if_neg hdx]
      rw [← List.cons_append, ← hex]
      rw [ih x (by simp) f (dumpsArr xs ++ 93 :: rest) (by omega)
        (headNoDigit_dumpsArr xs rest)]
      simp only [parseArrRest_dumpsArr xs f rest
        (fun y hy => ih y (by simp [hy]) ) (by omega)]
  | obj hk hv ih =>
    rename_i ps
    intro fuel rest hlen hnd
    cases ps with
    | nil =>
      cases fuel with
      | zero => simp [dumpsV] at hlen
      | succ f =>
        rw [show dumpsV (.obj []) ++ rest = 123 :: 125 :: rest by simp [dumpsV]]
        simp [parseValue, skipWs, isWsB]
    | cons p ps =>
      obtain ⟨k, v⟩ := p
      have hkk : WfStr k := hk (k, v) (by simp)
      have hlo : (dumpsV (.obj ((k, v) :: ps))).length =
          (escStr k).length + (dumpsV v).length + (dumpsObj ps).length + 6 := by
        simp only [dumpsV, dumpsPair, List.length_append, List.length_cons, List.length_nil]
        omega
      cases fuel with
      | zero => omega
      | succ f =>
      rw [show dumpsV (.obj ((k, v) :: ps)) ++ rest =
          123 :: 34 :: (escStr k ++
            (34 :: 58 :: 32 :: (dumpsV v ++ (dumpsObj ps ++ 125 :: rest)))) by
        simp [dumpsV, dumpsPair]]
      simp only [parseValue]
      norm_num
      rw [show skipWs (34 :: (escStr k ++
          (34 :: 58 :: 32 :: (dumpsV v ++ (dumpsObj ps ++ 125 :: rest))))) =
          34 :: (escStr k ++
            (34 :: 58 :: 32 :: (dumpsV v ++ (dumpsObj ps ++ 125 :: rest)))) from by
        rw [skipWs, if_neg (by simp [isWsB])]]
      norm_num
      rw [show parseStrBody (escStr k ++
          (34 :: 58 :: 32 :: (dumpsV v ++ (dumpsObj ps ++ 125 :: rest)))) =
          some (k, 58 :: 32 :: (dumpsV v ++ (dumpsObj ps ++ 125 :: rest))) from by
        rw [parseStrBody]
        exact parseStrBodyGo_escStr k _ _ hkk (by simp [List.length_append])]
      simp only []
      rw [show skipWs (58 :: 32 :: (dumpsV v ++ (dumpsObj ps ++ 125 :: rest))) =
          58 :: 32 :: (dumpsV v ++ (dumpsObj ps ++ 125 :: rest)) from by
        rw [skipWs, if_neg (by simp [isWsB])]]
      norm_num
      rw [skipWs_cons32, skipWs_dumpsV v (dumpsObj ps ++ 125 :: rest)]
      have ihv : ∀ (fuel2 : Nat) (rest2 : List Nat), (dumpsV v).length < fuel2 →
          headNoDigit rest2 = true → parseValue fuel2 (dumpsV v ++ rest2) = some (v, rest2) :=
        ih (k, v) (by simp)
      rw [ihv f (dumpsObj ps ++ 125 :: rest) (by omega) (headNoDigit_dumpsObj ps rest)]
      simp only [parseObjRest_dumpsObj ps f rest (fun q hq => hk q (by simp [hq]))
        (fun q hq => ih q (by simp [hq])) (by omega)]

theorem loads_dumpsV (v : JVal) (hwf : WfV v) (tail : List Nat)
    (hnd : headNoDigit tail = true) (hws : skipWs tail = []) :
    loads (dumpsV v ++ tail) = some v := by
  rw [loads, skipWs_dumpsV v tail]
  rw [parseValue_dumpsV v hwf ((dumpsV v ++ tail).length + 1) tail
    (by simp [List.length_append]; omega) hnd]
  simp [hws]

/-! ### The listener registry (SerialProtocol field for listeners)

The dict from event name to a set of listeners is modelled as an
association list in insertion order; each listener set is a list without
duplicates whose order stands for the unspecified iteration order of the
Python set.  Listeners are identified by numbers. -/

/-- Listener identity. -/
abbrev LId := Nat

/-- The listener registry: event name to listener set. -/
abbrev Reg := List (PyStr × List LId)

/-- Dict lookup, as the code uses with in and get. -/
def lookupReg : Reg → PyStr → Option (List LId)
  | [], _ => none
  | (e, ls) :: r, ev => if e = ev then some ls else lookupReg r ev

/-- The listener set currently registered for an event, empty when the
event has no entry. -/
def listenersOf (reg : Reg) (ev : PyStr) : List LId := (lookupReg reg ev).getD []

/-- SerialProtocol.add_listener: create the set on first use of the
event name, then set insertion (adding a present member is a no-op). -/
def add_listener : Reg → PyStr → LId → Reg
  | [], ev, l => [(ev, [l])]
  | (e, ls) :: r, ev, l =>
    if e = ev then (e, if l ∈ ls then ls else ls ++ [l]) :: r
    else (e, ls) :: add_listener r ev l

/-- SerialProtocol.remove_listener: set discard when the event has an
entry; the entry itself is kept, matching the code, which never deletes
dict keys. -/
def remove_listener : Reg → PyStr → LId → Reg
  | [], _, _ => []
  | (e, ls) :: r, ev, l =>
    if e = ev then (e, ls.filter (fun x => x != l)) :: r
    else (e, ls) :: remove_listener r ev l

/-- Every listener in the registry, over every event, in dict insertion
order, as cancel_all_listener walks them. -/
def allListeners : Reg → List LId
  | [] => []
  | (_, ls) :: r => ls ++ allListeners r

/-! ### Dispatch (SerialProtocol.trigger_listener)

The loop iterates the live set object obtained from the dict, not a
copy.  CPython set iterators compare the set size against the size at
iterator creation on every next() call and raise RuntimeError when it
changed, so a callback that adds or removes a listener for the
dispatched event aborts the iteration; the model checks the live size
against the original size before every step exactly as the iterator
does.  Awaitables returned by callbacks are gathered afterwards with
return_exceptions=True, so their failures are swallowed. -/

/-- A synchronous registry call a callback may make. -/
inductive RegOp where
  | addL (ev : PyStr) (l : LId)
  | removeL (ev : PyStr) (l : LId)
deriving DecidableEq

def applyRegOp (reg : Reg) : RegOp → Reg
  | .addL ev l => add_listener reg ev l
  | .removeL ev l => remove_listener reg ev l

/-- Behaviour of one listener under dispatch: the registry call its
callback makes synchronously, if any; whether the callback raises;
whether it returns an awaitable, and whether that awaitable fails. -/
structure ListenerSpec where
  cbOp : Option RegOp
  cbRaises : Bool
  returnsAwaitable : Bool
  awaitFails : Bool
deriving DecidableEq

/-- Behaviour assignment for every listener identity. -/
abbrev Specs := LId → ListenerSpec

/-- The benign behaviours: callbacks that neither touch the registry nor
raise, exactly like the callback methods of ResultEventListener and
ResultQueueListener. -/
def Benign (specs : Specs) : Prop :=
  ∀ l, (specs l).cbOp = none ∧ (specs l).cbRaises = false

/-- Outcome of trigger_listener: ok when the iteration and the closing
gather complete, carrying the listeners whose callbacks were invoked, in
order, the final registry and the listeners whose awaited results were
exceptions (swallowed by return_exceptions=True); raised when an
exception escapes, either a RuntimeError from the set iterator after a
size change or an exception raised synchronously by a callback. -/
inductive DOut where
  | ok (delivered : List LId) (reg : Reg) (failedAwaits : List LId)
  | raised (delivered : List LId) (reg : Reg)
deriving DecidableEq

def triggerGo (specs : Specs) (ev : PyStr) (origSize : Nat) :
    List LId → Reg → List LId → List LId → DOut
  | pending, reg, delivered, tasks =>
    if (listenersOf reg ev).length ≠ origSize then .raised delivered reg
    else
      match pending with
      | [] => .ok delivered reg (tasks.filter (fun l => (specs l).awaitFails))
      | l :: rest =>
        if (specs l).cbRaises then .raised delivered reg
        else
          triggerGo specs ev origSize rest
            (match (specs l).cbOp with
             | some op => applyRegOp reg op
             | none => reg)
            (delivered ++ [l])
            (if (specs l).returnsAwaitable then tasks ++ [l] else tasks)

/-- SerialProtocol.trigger_listener under the dispatch model. -/
def trigger_listener (specs : Specs) (reg : Reg) (ev : PyStr) : DOut :=
  match lookupReg reg ev with
  | none => .ok [] reg []
  | some ls => triggerGo specs ev ls.length ls reg [] []

/-! ### Messages -/

def evKey : PyStr := pyStr "event"
def verKey : PyStr := pyStr "version"
def evClosed : PyStr := pyStr "closed"
def retSuffix : PyStr := pyStr "_return"
def pvEvent : PyStr := pyStr "protocol_version"

/-- Dict lookup on a decoded message object. -/
def lookupObj : List (PyStr × JVal) → PyStr → Option JVal
  | [], _ => none
  | (k, v) :: r, key => if k = key then some v else lookupObj r key

/-- Subscript access resp[key] as the read loop and _init use it: a
KeyError or a TypeError on a non-dict both land in the bare except
clause, which the callers model as the none case. -/
def getItem : JVal → PyStr → Option JVal
  | .obj ps, k => lookupObj ps k
  | _, _ => none

/-- In-place dict assignment data[key] = val: replace the value at an
existing key, keeping its position, or append a new entry. -/
def setKey : List (PyStr × JVal) → PyStr → JVal → List (PyStr × JVal)
  | [], key, val => [(key, val)]
  | (k, v) :: r, key, val =>
    if k = key then (k, val) :: r else (k, v) :: setKey r key val

/-! ### Request encoding (SerialProtocol.request) and the correlator
(SerialProtocol.request_with_result) -/

/-- The in-place mutation request performs on its data dict before
encoding: the event key is assigned, overwriting any caller value. -/
def requestData (event : PyStr) (data : List (PyStr × JVal)) : List (PyStr × JVal) :=
  setKey data evKey (.str event)

/-- States of the single shared default dict of request, observed at the
start of each of a sequence of calls that omit the data argument: the
dict object is allocated once at function definition time, so each call
starts from whatever the previous calls left in it. -/
def requestSharedSeen : List PyStr → List (PyStr × JVal) → List (List (PyStr × JVal))
  | [], _ => []
  | e :: es, st => st :: requestSharedSeen es (requestData e st)

/-- Bytes written for one request: json.dumps of the payload followed by
the "\r\n" terminator (two write calls, serialized by the write lock).
The dumps output is ASCII, so its UTF-8 encoding is the code points
themselves. -/
def encodeRequestLine (m : List (PyStr × JVal)) : List Nat :=
  dumpsV (.obj m) ++ [13, 10]

/-- Decoding the read loop applies to one framed line: json.load over
the received bytes of the line. -/
def decodeFrame (bs : List Nat) : Option JVal := loads bs

/-- How one request_with_result call can end: the reply is delivered
within the timeout, the wait times out, or the request write raises. -/
inductive RwrOut where
  | success (resp : JVal)
  | timeout
  | writeFail

/-- Registry operations performed by one request_with_result call, in
order. -/
inductive RwrStep where
  | added
  | sent
  | removed
deriving DecidableEq

/-- SerialProtocol.request_with_result: register a fresh one-shot
listener under event plus the return suffix, send, await, and remove
the listener in the finally clause on every exit path.  The result is
the returned value or the raised error, the final registry, and the
trace of steps taken. -/
def request_with_result (reg : Reg) (ev : PyStr) (l : LId) (out : RwrOut) :
    Except Unit JVal × Reg × List RwrStep :=
  let ret := ev ++ retSuffix
  let reg1 := add_listener reg ret l
  match out with
  | .writeFail => (.error (), remove_listener reg1 ret l, [.added, .removed])
  | .timeout => (.error (), remove_listener reg1 ret l, [.added, .sent, .removed])
  | .success resp => (.ok resp, remove_listener reg1 ret l, [.added, .sent, .removed])

/-! ### Connection state and lifecycle -/

/-- The mutable connection state of a SerialProtocol instance: the
transport handle (none, or some flag telling whether the handle is
already closed), the negotiated version value, the listener registry,
and whether the background read task handle is set. -/
structure ProtoState where
  s : Option Bool
  v : JVal
  l : Reg
  lt : Bool

/-- The version property. -/
def version (st : ProtoState) : JVal := st.v

/-- The synthetic closed message _clean_up builds. -/
def closedMsg : JVal := .obj [(evKey, .str evClosed)]

/-- SerialProtocol._clean_up: trigger the closed event (only listeners
registered under the closed event name are looked up), cancel every
listener, close the transport when it is open and clear its handle,
clear the task handle, and reset the version to 0.  When the closed
dispatch raises, the exception propagates and nothing after it runs,
which the error case records with the partially updated state.  The ok
case carries the new state, the listeners that received the closed
message, and the cancelled listeners. -/
def clean_up (specs : Specs) (st : ProtoState) :
    Except ProtoState (ProtoState × List LId × List LId) :=
  match trigger_listener specs st.l evClosed with
  | .raised _ reg2 => .error { st with l := reg2 }
  | .ok delivered reg2 _ =>
    .ok ({ s := if st.s = some false then none else st.s, v := .int 0, l := reg2,
           lt := false }, delivered, allListeners reg2)

/-! ### The read loop (SerialProtocol._listen) -/

/-- One iteration of the read loop, abstracted as what read_until and
the transport produce: a framed line of bytes, a CancelledError or
KeyboardInterrupt, or a SerialException on a broken link. -/
inductive ReadEv where
  | line (bs : List Nat)
  | cancelled
  | serialErr
deriving DecidableEq

/-- Deliveries made by the loop so far: event, listener, message. -/
abbrev DispatchLog := List (PyStr × LId × JVal)

/-- Result of running the read loop on a finite schedule of read
events: still running with the input exhausted, exited through
_clean_up, or crashed because the closed dispatch inside _clean_up
raised. -/
inductive LRes where
  | running (st : ProtoState) (log : DispatchLog)
  | exited (st : ProtoState) (log : DispatchLog) (closedTo cancelled : List LId)
  | crashed (st : ProtoState) (log : DispatchLog)

/-- Loop exit: run _clean_up and package its outcome. -/
def exitCleanup (specs : Specs) (st : ProtoState) (log : DispatchLog) : LRes :=
  match clean_up specs st with
  | .ok (st2, d, c) => .exited st2 log d c
  | .error st2 => .crashed st2 log

/-- SerialProtocol._listen: while the transport handle is set, read a
line and decode it; a json decode failure is logged and skipped, a
missing or non-string event field lands in the bare except clause and is
skipped, a decoded event is dispatched through trigger_listener (whose
RuntimeError, if any, is also caught by the bare except clause);
cancellation and serial errors break the loop; on loop exit _clean_up
runs. -/
def listenLoop (specs : Specs) : ProtoState → List ReadEv → DispatchLog → LRes
  | st, evs, log =>
    if st.s = none then exitCleanup specs st log
    else
      match evs with
      | [] => .running st log
      | .cancelled :: _ => exitCleanup specs st log
      | .serialErr :: _ => exitCleanup specs st log
      | .line bs :: rest =>
        match loads bs with
        | none => listenLoop specs st rest log
        | some resp =>
          match getItem resp evKey with
          | some (.str e) =>
            match trigger_listener specs st.l e with
            | .ok delivered reg2 _ =>
              listenLoop specs { st with l := reg2 } rest
                (log ++ delivered.map (fun l => (e, l, resp)))
            | .raised delivered reg2 =>
              listenLoop specs { st with l := reg2 } rest
                (log ++ delivered.map (fun l => (e, l, resp)))
          | _ => listenLoop specs st rest log

/-! ### The per-port handshake (SerialProtocol._init) -/

/-- Behaviour of the remote end during one _init attempt: the port
fails to open, a reply to the version request arrives within the fixed
0.25 second timeout, or nothing arrives in time. -/
inductive InitScenario where
  | openFail
  | reply (resp : JVal)
  | noReply

/-- State after close() during _init: close cancels the read task, the
loop breaks on the CancelledError and _clean_up runs. -/
def closeState (specs : Specs) (st : ProtoState) : ProtoState :=
  match clean_up specs st with
  | .ok (st2, _, _) => st2
  | .error st2 => st2

/-- The expected handshake reply with an integer version. -/
def pvResp (v : Int) : JVal :=
  .obj [(evKey, .str (pyStr "protocol_version_return")), (verKey, .int v)]

/-- SerialProtocol._init for one port: open the transport (an OSError
reports failure with nothing changed), write a line terminator, start
the read task, issue protocol_version through request_with_result with
the fixed short timeout; on a reply, store its version field and report
success, a missing field or a timeout closes and reports failure. -/
def _init (specs : Specs) (l : LId) (st : ProtoState) : InitScenario → Bool × ProtoState
  | .openFail => (false, st)
  | .reply resp =>
    let st1 : ProtoState := { st with s := some false, lt := true }
    let reg2 := (request_with_result st1.l pvEvent l (.success resp)).2.1
    let st2 : ProtoState := { st1 with l := reg2 }
    match getItem resp verKey with
    | some ver => (true, { st2 with v := ver })
    | none => (false, closeState specs st2)
  | .noReply =>
    let st1 : ProtoState := { st with s := some false, lt := true }
    let reg2 := (request_with_result st1.l pvEvent l .timeout).2.1
    (false, closeState specs { st1 with l := reg2 })

/-! ### Line reading (SerialProtocol.read_until) -/

/-- One iteration of the read_until polling loop: either the transport
handle is still set and the non-blocking read returns zero bytes or one
byte at the given clock reading, or the handle has been cleared, which
the loop head check turns into returning None. -/
inductive Poll where
  | recv (b : Option Nat) (t : Int)
  | gone
deriving DecidableEq

/-- Result of read_until on a finite schedule of polls: a byte string
was returned, None was returned because the transport handle was gone,
or the schedule ran out while the loop was still polling with the given
buffer. -/
inductive RURes where
  | returned (bs : List Nat)
  | noneRet
  | running (buf : List Nat)
deriving DecidableEq

/-- bytes.endswith as the loop uses it. -/
def endsWithB (buf endB : List Nat) : Bool := List.isSuffixOf endB buf

def read_until_go (endB : List Nat) (timeout : Option Int) (start : Int) :
    List Nat → List Poll → RURes
  | buf, [] => .running buf
  | _, .gone :: _ => .noneRet
  | buf, .recv b t :: rest =>
    let buf2 := buf ++ b.toList
    if endsWithB buf2 endB ||
        (match timeout with
         | some T => decide (t - start > T)
         | none => false) then
      .returned buf2
    else read_until_go endB timeout start buf2 rest

/-- SerialProtocol.read_until: empty buffer, the clock read at call
start, then the polling loop. -/
def read_until (endB : List Nat) (timeout : Option Int) (start : Int)
    (polls : List Poll) : RURes :=
  read_until_go endB timeout start [] polls

/-- Modelled from the spec: the words of the specification describe the
return as happening exactly when the accumulated buffer first ends with
the delimiter; this function returns that buffer, none when no poll in
the schedule reaches that point. -/
def specFirstDelimHit (endB : List Nat) : List Nat → List Poll → Option (List Nat)
  | _, [] => none
  | _, .gone :: _ => none
  | buf, .recv b _ :: rest =>
    let buf2 := buf ++ b.toList
    if endsWithB buf2 endB then some buf2 else specFirstDelimHit endB buf2 rest

/-- A poll at which the transport was still present. -/
def isRecv : Poll → Bool
  | .recv _ _ => true
  | .gone => false

theorem triggerGo_benign (specs : Specs) (hb : Benign specs) (ev : PyStr) (orig : Nat) :
    ∀ (pending : List LId) (reg : Reg) (delivered tasks : List LId),
    (listenersOf reg ev).length = orig →
    triggerGo specs ev orig pending reg delivered tasks =
      .ok (delivered ++ pending) reg
        ((tasks ++ pending.filter (fun l => (specs l).returnsAwaitable)).filter
          (fun l => (specs l).awaitFails)) := by
  intro pending
  induction pending with
  | nil =>
    intro reg delivered tasks hsize
    rw [triggerGo, if_neg (by simp [hsize])]
    simp
  | cons l rest ihp =>
    intro reg delivered tasks hsize
    obtain ⟨hop, hraise⟩ := hb l
    rw [triggerGo, if_neg (by simp [hsize])]
    simp only [hraise, Bool.false_eq_true, if_false, hop]
    rw [ihp reg (delivered ++ [l])
      (if (specs l).returnsAwaitable then tasks ++ [l] else tasks) hsize]
    by_cases hra : (specs l).returnsAwaitable = true
    · simp [hra, List.filter_cons, List.append_assoc]
    · simp only [Bool.not_eq_true] at hra
      simp [hra, List.filter_cons, List.append_assoc]

theorem trigger_benign (specs : Specs) (hb : Benign specs) (reg : Reg) (ev : PyStr) :
    trigger_listener specs reg ev =
      .ok (listenersOf reg ev) reg
        (((listenersOf reg ev).filter (fun l => (specs l).returnsAwaitable)).filter
          (fun l => (specs l).awaitFails)) := by
  cases hh : lookupReg reg ev with
  | none => simp [trigger_listener, listenersOf, hh]
  | some ls =>
    have hsize : (listenersOf reg ev).length = ls.length := by simp [listenersOf, hh]
    have e1 : trigger_listener specs reg ev = triggerGo specs ev ls.length ls reg [] [] := by
      rw [trigger_listener, hh]
    rw [e1, triggerGo_benign specs hb ev ls.length ls reg [] [] hsize]
    simp [listenersOf, hh]

theorem lookupReg_add_ne : ∀ (reg : Reg) (ev : PyStr) (l : LId) (e : PyStr), e ≠ ev →
    lookupReg (add_listener reg ev l) e = lookupReg reg e := by
  intro reg ev l e hne
  induction reg with
  | nil =>
    rw [add_listener]
    simp only [lookupReg]
    rw [if_neg (fun h => hne (Eq.symm h))]
  | cons entry r ihr =>
    obtain ⟨e0, ls⟩ := entry
    by_cases h0 : e0 = ev
    · subst h0
      rw [add_listener, if_pos rfl, lookupReg, lookupReg,
        if_neg (by exact fun h => hne h.symm)]
      rw [if_neg (by exact fun h => hne h.symm)]
    · rw [add_listener, if_neg h0, lookupReg, lookupReg]
      by_cases h1 : e0 = e
      · rw [if_pos h1, if_pos h1]
      · rw [if_neg h1, if_neg h1, ihr]

theorem lookupReg_remove_ne : ∀ (reg : Reg) (ev : PyStr) (l : LId) (e : PyStr), e ≠ ev →
    lookupReg (remove_listener reg ev l) e = lookupReg reg e := by
  intro reg ev l e hne
  induction reg with
  | nil => simp [remove_listener]
  | cons entry r ihr =>
    obtain ⟨e0, ls⟩ := entry
    by_cases h0 : e0 = ev
    · subst h0
      rw [remove_listener, if_pos rfl, lookupReg, lookupReg,
        if_neg (by exact fun h => hne h.symm), if_neg (by exact fun h => hne h.symm)]
    · rw [remove_listener, if_neg h0, lookupReg, lookupReg]
      by_cases h1 : e0 = e
      · rw [if_pos h1, if_pos h1]
      · rw [if_neg h1, if_neg h1, ihr]

theorem not_mem_listenersOf_remove_self : ∀ (reg : Reg) (ev : PyStr) (l : LId),
    l ∉ listenersOf (remove_listener reg ev l) ev := by
  intro reg ev l
  induction reg with
  | nil => simp [remove_listener, listenersOf, lookupReg]
  | cons entry r ihr =>
    obtain ⟨e0, ls⟩ := entry
    by_cases h0 : e0 = ev
    · subst h0
      rw [remove_listener, if_pos rfl]
      simp [listenersOf, lookupReg]
    · rw [remove_listener, if_neg h0]
      simpa [listenersOf, lookupReg, h0] using ihr

theorem clean_up_benign (specs : Specs) (hb : Benign specs) (st : ProtoState) :
    clean_up specs st =
      .ok ({ s := if st.s = some false then none else st.s, v := .int 0, l := st.l,
             lt := false }, listenersOf st.l evClosed, allListeners st.l) := by
  rw [clean_up, trigger_benign specs hb st.l evClosed]

theorem loads_encodeRequestLine (m : List (PyStr × JVal)) (hk : ∀ p ∈ m, WfStr p.1)
    (hv : ∀ p ∈ m, WfV p.2) : loads (encodeRequestLine m) = some (.obj m) := by
  rw [encodeRequestLine]
  exact loads_dumpsV (.obj m) (WfV.obj hk hv) [13, 10] rfl rfl

theorem ruGo_none_iff (endB : List Nat) (start : Int) :
    ∀ (polls : List Poll) (buf bs : List Nat),
    (read_until_go endB none start buf polls = .returned bs ↔
      specFirstDelimHit endB buf polls = some bs) := by
  intro polls
  induction polls with
  | nil =>
    intro buf bs
    simp [read_until_go, specFirstDelimHit]
  | cons p rest ihp =>
    intro buf bs
    cases p with
    | gone => simp [read_until_go, specFirstDelimHit]
    | recv b t =>
      simp only [read_until_go, specFirstDelimHit, Bool.or_false]
      by_cases hend : endsWithB (buf ++ b.toList) endB = true
      · simp [hend]
      · simp only [Bool.not_eq_true] at hend
        simp [hend, ihp]

theorem ruGo_timeout (endB : List Nat) (start : Int) (T : Int) (b : Option Nat) (t : Int)
    (p2 : List Poll) :
    ∀ (p1 : List Poll) (buf : List Nat),
    (∀ p ∈ p1, isRecv p = true) → t - start > T →
    ∃ bs, read_until_go endB (some T) start buf (p1 ++ .recv b t :: p2) = .returned bs := by
  intro p1
  induction p1 with
  | nil =>
    intro buf _ ht
    refine ⟨buf ++ b.toList, ?_⟩
    simp only [List.nil_append, read_until_go]
    rw [if_pos (by simp [ht])]
  | cons q rest ihq =>
    intro buf hall ht
    have hq : isRecv q = true := hall q (by simp)
    cases q with
    | gone => simp [isRecv] at hq
    | recv bb tt =>
      simp only [List.cons_append, read_until_go]
      by_cases hcond : (endsWithB (buf ++ bb.toList) endB ||
          decide (tt - start > T)) = true
      · exact ⟨buf ++ bb.toList, by simp [hcond]⟩
      · have hrec := ihq (buf ++ bb.toList) (fun p hp => hall p (by simp [hp])) ht
        simp only [Bool.not_eq_true] at hcond
        simpa [hcond] using hrec

theorem ruGo_append (endB : List Nat) (timeout : Option Int) (start : Int) :
    ∀ (p1 p2 : List Poll) (buf : List Nat),
    read_until_go endB timeout start buf (p1 ++ p2) =
      match read_until_go endB timeout start buf p1 with
      | .running buf2 => read_until_go endB timeout start buf2 p2
      | r => r := by
  intro p1
  induction p1 with
  | nil =>
    intro p2 buf
    simp [read_until_go]
  | cons q rest ihq =>
    intro p2 buf
    cases q with
    | gone => simp [read_until_go]
    | recv b t =>
      simp only [List.cons_append, read_until_go]
      split
      · rfl
      · simp only [List.append_eq]
        rw [ihq]

theorem lookupObj_setKey : ∀ (d : List (PyStr × JVal)) (k : PyStr) (val : JVal),
    lookupObj (setKey d k val) k = some val := by
  intro d k val
  induction d with
  | nil => simp [setKey, lookupObj]
  | cons p r ihd =>
    obtain ⟨k0, v0⟩ := p
    by_cases h0 : k0 = k
    · subst h0
      rw [setKey, if_pos rfl, lookupObj, if_pos rfl]
    · rw [setKey, if_neg h0, lookupObj, if_neg h0, ihd]

/-- C1 counterexample: the claim says trigger_listener snapshots the
listener set before invoking callbacks, so a remove_listener call made
from within a callback never corrupts or aborts the in-flight dispatch.
The code iterates the live set object; with listeners 0 and 1 registered
for event e and listener 0 removing itself from e in its callback, the
set iterator detects the size change at the next step and raises
RuntimeError: the dispatch aborts and listener 1, a member of the set
when the dispatch began, is never invoked (delivered list [0], not
[0, 1]). -/
theorem C1_counterexample :
    trigger_listener
        (fun l => if l = 0 then ⟨some (RegOp.removeL (pyStr "e") 0), false, false, false⟩
          else ⟨none, false, false, false⟩)
        [(pyStr "e", [0, 1])] (pyStr "e") =
      DOut.raised [0] [(pyStr "e", [1])] ∧
    ([0] : List LId) ≠ [0, 1] := by
  exact ⟨rfl, by decide⟩

/-- C1 (amended): when no callback synchronously mutates the registry or
raises, which covers every listener class the code itself registers,
trigger_listener delivers the message to exactly the set of listeners
registered at the moment the dispatch begins, never aborts, leaves the
registry unchanged, and failures of the returned awaitables are
collected by the closing gather with return_exceptions, not propagated.
A mutation from within a callback that changes the size of the
dispatched event listener set instead aborts the dispatch with a
RuntimeError from the live set iterator (see the counterexample). -/
theorem C1_trigger_dispatch_amended (specs : Specs) (reg : Reg) (ev : PyStr)
    (hb : Benign specs) :
    trigger_listener specs reg ev =
      DOut.ok (listenersOf reg ev) reg
        (((listenersOf reg ev).filter (fun l => (specs l).returnsAwaitable)).filter
          (fun l => (specs l).awaitFails)) :=
  trigger_benign specs hb reg ev

/-- C1 witness: the amended theorem applied to two registered listeners,
both with failing awaitables. -/
theorem C1_witness :
    trigger_listener (fun _ => ⟨none, false, true, true⟩)
        [(pyStr "e", [0, 1])] (pyStr "e") =
      DOut.ok [0, 1] [(pyStr "e", [0, 1])] [0, 1] := by
  rw [C1_trigger_dispatch_amended (fun _ => ⟨none, false, true, true⟩)
    [(pyStr "e", [0, 1])] (pyStr "e") (fun _ => ⟨rfl, rfl⟩)]
  rfl

/-- C2: request_with_result registers its one-shot listener under the
synthetic name event plus the return suffix before sending, and on every
exit path, a delivered reply, a timeout, or a failing request write, the
finally clause removes it exactly once, so afterwards the registry holds
no entry for that listener anywhere. -/
theorem C2_rwr_deregisters (reg : Reg) (ev : PyStr) (l : LId) (out : RwrOut)
    (hfresh : ∀ e, l ∉ listenersOf reg e) :
    (∀ e, l ∉ listenersOf (request_with_result reg ev l out).2.1 e) ∧
    (request_with_result reg ev l out).2.2.count .removed = 1 ∧
    (request_with_result reg ev l out).2.2.head? = some .added := by
  refine ⟨?_, ?_, ?_⟩
  · intro e
    have hcore : l ∉ listenersOf
        (remove_listener (add_listener reg (ev ++ retSuffix) l) (ev ++ retSuffix) l) e := by
      by_cases he : e = ev ++ retSuffix
      · subst he
        exact not_mem_listenersOf_remove_self _ _ _
      · rw [listenersOf, lookupReg_remove_ne _ _ _ _ he, lookupReg_add_ne _ _ _ _ he]
        exact hfresh e
    cases out <;> simpa [request_with_result] using hcore
  · cases out <;> rfl
  · cases out <;> rfl

/-- C2 witness: a timed-out call on an empty registry leaves no trace of
the listener and removed it exactly once. -/
theorem C2_witness :
    0 ∉ listenersOf (request_with_result [] (pyStr "a") 0 RwrOut.timeout).2.1
        (pyStr "a" ++ retSuffix) ∧
    (request_with_result [] (pyStr "a") 0 RwrOut.timeout).2.2.count .removed = 1 ∧
    (request_with_result [] (pyStr "a") 0 RwrOut.timeout).2.2.head? = some .added := by
  have h := C2_rwr_deregisters [] (pyStr "a") 0 RwrOut.timeout
    (fun e => by simp [listenersOf, lookupReg])
  exact ⟨h.1 _, h.2.1, h.2.2⟩

/-- C3 counterexample: the claim says that after cleanup every listener
registered for any event has received the synthetic closed event and the
registry is empty.  With one listener registered for event x, _clean_up
triggers only the closed event name, so the listener receives nothing
(closed delivery list empty), and the registry still holds the listener:
the code never clears the dict. -/
theorem C3_counterexample :
    clean_up (fun _ => ⟨none, false, false, false⟩)
        ⟨some false, JVal.int 3, [(pyStr "x", [0])], true⟩ =
      Except.ok (⟨none, JVal.int 0, [(pyStr "x", [0])], false⟩, ([] : List LId), [0]) ∧
    [(pyStr "x", [0])] ≠ ([] : Reg) := by
  exact ⟨rfl, by decide⟩

/-- C3 (amended): whenever the read loop exits, for any reason it can
observe (transport handle gone, cancellation or a serial error), the
cleanup step runs and afterwards the closed event has been delivered
exactly to the listeners registered under the closed event name, every
listener of every event has been cancelled, the registry keeps its
entries, the transport is closed and its handle cleared when it was
open, the background task handle is cleared, and the version is reset to
the integer 0.  The benign hypothesis states that the registered
callbacks neither mutate the registry nor raise, which holds for both
listener classes of the code. -/
theorem C3_cleanup_amended (specs : Specs) (st : ProtoState) (hb : Benign specs) :
    clean_up specs st =
      Except.ok ({ s := (if st.s = some false then none else st.s), v := JVal.int 0,
                   l := st.l, lt := false },
        listenersOf st.l evClosed, allListeners st.l) ∧
    ∀ (evs : List ReadEv) (log : DispatchLog),
      listenLoop specs st (ReadEv.cancelled :: evs) log =
        LRes.exited { s := (if st.s = some false then none else st.s), v := JVal.int 0,
                      l := st.l, lt := false }
          log (listenersOf st.l evClosed) (allListeners st.l) := by
  have hc := clean_up_benign specs hb st
  refine ⟨hc, ?_⟩
  intro evs log
  by_cases hs : st.s = none
  · rw [listenLoop, if_pos hs, exitCleanup, hc]
  · rw [listenLoop, if_neg hs]
    show exitCleanup specs st log = _
    rw [exitCleanup, hc]

/-- C3 witness: the amended theorem applied to a state with a closed
listener and another listener, with an open transport. -/
theorem C3_witness :
    clean_up (fun _ => ⟨none, false, false, false⟩)
        ⟨some false, JVal.int 9, [(evClosed, [5]), (pyStr "x", [7])], true⟩ =
      Except.ok (⟨none, JVal.int 0, [(evClosed, [5]), (pyStr "x", [7])], false⟩,
        [5], [5, 7]) := by
  rw [(C3_cleanup_amended (fun _ => ⟨none, false, false, false⟩)
    ⟨some false, JVal.int 9, [(evClosed, [5]), (pyStr "x", [7])], true⟩
    (fun _ => ⟨rfl, rfl⟩)).1]
  rfl

/-- C4: in a per-port attempt that opens the transport, if the reply
with event protocol_version_return and an integer version field arrives
within the handshake timeout, _init reports success and the version
property afterwards reads exactly that integer; if nothing arrives in
time, the attempt closes the connection (the transport handle ends up
cleared) and reports failure. -/
theorem C4_handshake (specs : Specs) (l : LId) (st : ProtoState) (v : Int)
    (hb : Benign specs) :
    ((_init specs l st (.reply (pvResp v))).1 = true ∧
      version (_init specs l st (.reply (pvResp v))).2 = JVal.int v) ∧
    ((_init specs l st .noReply).1 = false ∧ (_init specs l st .noReply).2.s = none) := by
  have hg : getItem (pvResp v) verKey = some (JVal.int v) := by rfl
  constructor
  · constructor
    · simp [_init, hg]
    · simp [_init, hg, version]
  · constructor
    · simp [_init]
    · simp only [_init]
      rw [closeState, clean_up_benign specs hb _]
      simp

/-- C4 witness: a concrete handshake with version 3 on a fresh state. -/
theorem C4_witness :
    (_init (fun _ => ⟨none, false, false, false⟩) 0 ⟨none, JVal.int 0, [], false⟩
        (InitScenario.reply (pvResp 3))).1 = true ∧
    version (_init (fun _ => ⟨none, false, false, false⟩) 0 ⟨none, JVal.int 0, [], false⟩
        (InitScenario.reply (pvResp 3))).2 = JVal.int 3 ∧
    (_init (fun _ => ⟨none, false, false, false⟩) 0 ⟨none, JVal.int 0, [], false⟩
        InitScenario.noReply).1 = false ∧
    (_init (fun _ => ⟨none, false, false, false⟩) 0 ⟨none, JVal.int 0, [], false⟩
        InitScenario.noReply).2.s = none := by
  have h := C4_handshake (fun _ => ⟨none, false, false, false⟩) 0
    ⟨none, JVal.int 0, [], false⟩ 3 (fun _ => ⟨rfl, rfl⟩)
  exact ⟨h.1.1, h.1.2, h.2.1, h.2.2⟩

theorem listenLoop_unfold (specs : Specs) (st : ProtoState) (evs : List ReadEv)
    (log : DispatchLog) :
    listenLoop specs st evs log =
      if st.s = none then exitCleanup specs st log
      else
        match evs with
        | [] => LRes.running st log
        | .cancelled :: _ => exitCleanup specs st log
        | .serialErr :: _ => exitCleanup specs st log
        | .line bs :: rest =>
          match loads bs with
          | none => listenLoop specs st rest log
          | some resp =>
            match getItem resp evKey with
            | some (.str e) =>
              match trigger_listener specs st.l e with
              | .ok delivered reg2 _ =>
                listenLoop specs { st with l := reg2 } rest
                  (log ++ delivered.map (fun l => (e, l, resp)))
              | .raised delivered reg2 =>
                listenLoop specs { st with l := reg2 } rest
                  (log ++ delivered.map (fun l => (e, l, resp)))
            | _ => listenLoop specs st rest log := by
  rw [listenLoop.eq_def]

/-- C5: read_until returns the accumulated buffer exactly at the first
poll after which the buffer ends with the delimiter, never earlier (the
iff against the specification-side description of that first hit), and
when a timeout is given and a poll is reached whose wall-clock reading
exceeds the start of the call plus the timeout, it returns the
accumulated, possibly delimiter-less, buffer; the clock reference is the
reading taken at call start, not at the last byte. -/
theorem C5_read_until (endB : List Nat) (start : Int) :
    (∀ (polls : List Poll) (bs : List Nat),
      read_until endB none start polls = RURes.returned bs ↔
        specFirstDelimHit endB [] polls = some bs) ∧
    (∀ (T t : Int) (b : Option Nat) (p1 p2 : List Poll),
      (∀ p ∈ p1, isRecv p = true) → t - start > T →
      ∃ bs, read_until endB (some T) start (p1 ++ Poll.recv b t :: p2) =
        RURes.returned bs) := by
  constructor
  · intro polls bs
    exact ruGo_none_iff endB start polls [] bs
  · intro T t b p1 p2 hall ht
    exact ruGo_timeout endB start T b t p2 p1 [] hall ht

/-- C5 witness: a frame fed one byte at a time is returned exactly when
the newline arrives, and with a timeout of 5 a poll at clock 10 makes a
delimiter-less read return. -/
theorem C5_witness :
    read_until [10] none 0 [Poll.recv (some 97) 0, Poll.recv (some 10) 1] =
      RURes.returned [97, 10] ∧
    ∃ bs, read_until [10] (some 5) 0 [Poll.recv none 0, Poll.recv none 10] =
      RURes.returned bs := by
  have h := C5_read_until [10] 0
  constructor
  · exact (h.1 [Poll.recv (some 97) 0, Poll.recv (some 10) 1] [97, 10]).mpr rfl
  · exact h.2 5 10 none [Poll.recv none 0] [] (by decide) (by decide)

/-- C6: a received line that fails json decoding triggers no listener
and does not end the read loop, which behaves as if the line had not
been read, and a subsequent well-formed frame on the same connection is
still decoded and dispatched to the listeners of its event. -/
theorem C6_malformed_frames (specs : Specs) :
    (∀ (st : ProtoState) (evs : List ReadEv) (log : DispatchLog) (bad : List Nat),
      loads bad = none →
      listenLoop specs st (ReadEv.line bad :: evs) log = listenLoop specs st evs log) ∧
    (∀ (st : ProtoState) (log : DispatchLog) (bad : List Nat) (m : List (PyStr × JVal))
      (e : PyStr), Benign specs → loads bad = none → ¬st.s = none →
      getItem (JVal.obj m) evKey = some (JVal.str e) →
      (∀ p ∈ m, WfStr p.1) → (∀ p ∈ m, WfV p.2) →
      listenLoop specs st [ReadEv.line bad, ReadEv.line (encodeRequestLine m)] log =
        LRes.running st
          (log ++ (listenersOf st.l e).map (fun l => (e, l, JVal.obj m)))) := by
  constructor
  · intro st evs log bad hbad
    by_cases hs : st.s = none
    · rw [listenLoop_unfold, if_pos hs, listenLoop_unfold, if_pos hs]
    · rw [listenLoop_unfold, if_neg hs]
      simp only [hbad]
  · intro st log bad m e hb hbad hs hget hk hv
    rw [listenLoop, if_neg hs]
    simp only [hbad]
    rw [listenLoop, if_neg hs]
    simp only [loads_encodeRequestLine m hk hv, hget, trigger_benign specs hb st.l e]
    rw [listenLoop]
    simp only [if_neg hs]

/-- C6 witness: the bytes of the text not json followed by a newline are
skipped and a following well-formed dialog frame still reaches the
registered listener. -/
theorem C6_witness :
    listenLoop (fun _ => ⟨none, false, false, false⟩)
        ⟨some false, JVal.int 0, [(pyStr "x", [5])], true⟩
        [ReadEv.line (pyStr "not json\n"),
         ReadEv.line (encodeRequestLine [(evKey, JVal.str (pyStr "x"))])] [] =
      LRes.running ⟨some false, JVal.int 0, [(pyStr "x", [5])], true⟩
        [(pyStr "x", 5, JVal.obj [(evKey, JVal.str (pyStr "x"))])] := by
  have h := (C6_malformed_frames (fun _ => ⟨none, false, false, false⟩)).2
    ⟨some false, JVal.int 0, [(pyStr "x", [5])], true⟩ [] (pyStr "not json\n")
    [(evKey, JVal.str (pyStr "x"))] (pyStr "x") (fun _ => ⟨rfl, rfl⟩) rfl
    (by simp) rfl
    (by
      intro p hp
      simp only [List.mem_singleton] at hp
      subst hp
      decide)
    (by
      intro p hp
      simp only [List.mem_singleton] at hp
      subst hp
      exact WfV.str (by decide))
  rw [h]
  rfl

/-- C7 counterexample: the claim says that when one listener fails,
whether synchronously or through its awaitable, every other registered
listener still receives the message.  With listeners 0 and 1 registered
for event e and the callback of listener 0 raising synchronously, the
exception propagates out of the dispatch loop before listener 1 is
invoked, so listener 1 receives nothing. -/
theorem C7_counterexample :
    trigger_listener
        (fun l => if l = 0 then ⟨none, true, false, false⟩ else ⟨none, false, false, false⟩)
        [(pyStr "e", [0, 1])] (pyStr "e") =
      DOut.raised [] [(pyStr "e", [0, 1])] ∧
    (1 : LId) ∉ ([] : List LId) := by
  exact ⟨rfl, by decide⟩

/-- C7 (amended): failures of the awaitables returned by callbacks are
tolerated: when no callback raises synchronously or mutates the
registry, a listener whose awaitable fails does not prevent any other
registered listener from receiving the message; every registered
listener is invoked, the dispatch completes, and the failing awaitable
is merely collected by the closing gather.  A synchronous raise in a
callback instead aborts the loop before the remaining listeners are
invoked (see the counterexample). -/
theorem C7_gather_amended (specs : Specs) (reg : Reg) (ev : PyStr) (l0 : LId)
    (hb : Benign specs) (hmem : l0 ∈ listenersOf reg ev)
    (hra : (specs l0).returnsAwaitable = true) (hfail : (specs l0).awaitFails = true) :
    ∃ failed, trigger_listener specs reg ev = DOut.ok (listenersOf reg ev) reg failed ∧
      l0 ∈ failed := by
  refine ⟨_, trigger_benign specs hb reg ev, ?_⟩
  exact List.mem_filter.mpr ⟨List.mem_filter.mpr ⟨hmem, hra⟩, hfail⟩

/-- C7 witness: listener 0 returns a failing awaitable and listener 1 is
still delivered. -/
theorem C7_witness :
    ∃ failed, trigger_listener
        (fun l => if l = 0 then ⟨none, false, true, true⟩ else ⟨none, false, false, false⟩)
        [(pyStr "e", [0, 1])] (pyStr "e") =
      DOut.ok [0, 1] [(pyStr "e", [0, 1])] failed ∧ 0 ∈ failed := by
  have h := C7_gather_amended
    (fun l => if l = 0 then ⟨none, false, true, true⟩ else ⟨none, false, false, false⟩)
    [(pyStr "e", [0, 1])] (pyStr "e") 0
    (fun l => by by_cases h0 : l = 0 <;> simp [h0]) (by decide) rfl rfl
  exact h

/-- C8: encoding a message as request does (json.dumps plus the line
terminator) and decoding the resulting bytes as the read loop does
(json.load on the framed line) yields the original mapping of string
keys to JSON-representable values, for every mapping whose strings are
made of Unicode scalar values. -/
theorem C8_roundtrip (m : List (PyStr × JVal)) (hk : ∀ p ∈ m, WfStr p.1)
    (hv : ∀ p ∈ m, WfV p.2) :
    decodeFrame (encodeRequestLine m) = some (JVal.obj m) :=
  loads_encodeRequestLine m hk hv

/-- C8 witness: a payload with a negative number, an accented character
and an astral character survives the round trip. -/
theorem C8_witness :
    decodeFrame (encodeRequestLine [(evKey, JVal.str (pyStr "dialog")),
        (pyStr "value", JVal.int (-7)), (pyStr "title", JVal.str [233, 119070])]) =
      some (JVal.obj [(evKey, JVal.str (pyStr "dialog")),
        (pyStr "value", JVal.int (-7)), (pyStr "title", JVal.str [233, 119070])]) := by
  apply C8_roundtrip
  · intro p hp
    fin_cases hp <;> decide
  · intro p hp
    fin_cases hp
    · exact WfV.str (by decide)
    · exact WfV.int _
    · exact WfV.str (by decide)

/-- C9: request assigns the event key of the caller-supplied dict in
place, overwriting any event value the caller stored there, and because
the data parameter default is one shared dict allocated at definition
time, a call that omits the payload starts from whatever earlier
omitting calls wrote: after a first omitted call with event e1, the
second omitted call observes a dict already carrying event e1.  The same
holds for request_with_result, whose own shared default dict is
forwarded to request and mutated there. -/
theorem C9_request_mutation :
    (∀ (e : PyStr) (d : List (PyStr × JVal)) (v : JVal),
      lookupObj (requestData e (setKey d evKey v)) evKey = some (JVal.str e)) ∧
    (∀ (e1 e2 : PyStr), requestSharedSeen [e1, e2] [] =
      [[], [(evKey, JVal.str e1)]]) := by
  constructor
  · intro e d v
    rw [requestData]
    exact lookupObj_setKey _ _ _
  · intro e1 e2
    rfl

/-- C10: when the transport handle is absent at the moment read_until
would poll again, whether at the first loop entry or after any number of
fruitless polls, read_until returns None rather than the accumulated
buffer, for any delimiter and any timeout setting, including none. -/
theorem C10_read_until_disconnect (endB : List Nat) (timeout : Option Int) (start : Int)
    (p1 p2 : List Poll) (buf : List Nat)
    (hrun : read_until endB timeout start p1 = RURes.running buf) :
    read_until endB timeout start (p1 ++ Poll.gone :: p2) = RURes.noneRet := by
  rw [read_until, ruGo_append endB timeout start p1 (Poll.gone :: p2) []]
  rw [read_until] at hrun
  rw [hrun]
  rfl

/-- C10 witness: one pending byte and a cleared handle yield None. -/
theorem C10_witness :
    read_until [10] none 0 ([Poll.recv (some 97) 0] ++ Poll.gone :: []) = RURes.noneRet :=
  C10_read_until_disconnect [10] none 0 [Poll.recv (some 97) 0] [] [97] rfl
